import Mathlib

/-!
Verification of the script-value core of MagicSetEditor2.

The repository sources under scrutiny are:
* `src/script/value.hpp` — the `ScriptType` and `CompareWhat` enums and the
  declaration of the `ScriptValue` capability interface and of the global
  `equal` function;
* `src/cli/cli_main.cpp` — `run_script_file` and
  `CLISetInterface::handleCommand`, the two call sites that parse script
  text and feed it to the evaluator.

The implementations of the concrete value variants, of `equal`, of the
conversions, of the `Context` scope stack, of the iterator protocol and of
the parser are not part of the source tree (only declarations and callers
are), so those parts are modelled from the specification; each such
definition carries a doc comment starting with `Modelled from the spec:`.
The CLI control flow is embedded directly from `cli_main.cpp`.
-/

/-- The closed set of value kinds, from `src/script/value.hpp` lines 22-38. -/
inductive ScriptType
  | SCRIPT_NIL
  | SCRIPT_INT
  | SCRIPT_BOOL
  | SCRIPT_DOUBLE
  | SCRIPT_STRING
  | SCRIPT_COLOR
  | SCRIPT_IMAGE
  | SCRIPT_FUNCTION
  | SCRIPT_OBJECT
  | SCRIPT_COLLECTION
  | SCRIPT_REGEX
  | SCRIPT_DATETIME
  | SCRIPT_ITERATOR
  | SCRIPT_DUMMY
  | SCRIPT_ERROR
deriving DecidableEq

open ScriptType

/-- Comparison strategies, from `src/script/value.hpp` lines 40-44. -/
inductive CompareWhat
  | COMPARE_NO
  | COMPARE_AS_STRING
  | COMPARE_AS_POINTER
deriving DecidableEq

open CompareWhat

/-- The decimal digit character for a digit value below ten. -/
def digitChar (d : Nat) : Char :=
  match d with
  | 0 => '0'
  | 1 => '1'
  | 2 => '2'
  | 3 => '3'
  | 4 => '4'
  | 5 => '5'
  | 6 => '6'
  | 7 => '7'
  | 8 => '8'
  | _ => '9'

/-- The digit value of a decimal digit character, `none` for any other
character. -/
def digitVal (c : Char) : Option (Fin 10) :=
  if c = '0' then some 0
  else if c = '1' then some 1
  else if c = '2' then some 2
  else if c = '3' then some 3
  else if c = '4' then some 4
  else if c = '5' then some 5
  else if c = '6' then some 6
  else if c = '7' then some 7
  else if c = '8' then some 8
  else if c = '9' then some 9
  else none

/-- Big-endian decimal digits of a natural number, with explicit fuel so the
definition is structural and computes by reduction. -/
def natDigitsAux (fuel n : Nat) : List Char :=
  match fuel with
  | 0 => []
  | fuel + 1 =>
    if n < 10 then [digitChar n]
    else natDigitsAux fuel (n / 10) ++ [digitChar (n % 10)]

/-- Big-endian decimal digits of a natural number. -/
def natDigits (n : Nat) : List Char :=
  natDigitsAux (n + 1) n

/-- Read decimal digits, folding into an accumulator; fails on the first
character that is not a digit. -/
def readNatAux (acc : Nat) : List Char → Option Nat
  | [] => some acc
  | c :: cs =>
    match digitVal c with
    | some d => readNatAux (acc * 10 + d.val) cs
    | none => none

/-- Read a nonempty run of decimal digits as a natural number. -/
def readNat (cs : List Char) : Option Nat :=
  if cs.isEmpty then none else readNatAux 0 cs

/-- Split a character list into its longest prefix of decimal digits and the
remainder. -/
def takeDigits : List Char → List Char × List Char
  | [] => ([], [])
  | c :: cs =>
    if (digitVal c).isSome then
      ((c :: (takeDigits cs).1), (takeDigits cs).2)
    else ([], c :: cs)

/-- Modelled from the spec: the payload of a `SCRIPT_DOUBLE` value, kept as an
exact decimal number (sign, integer part, fraction digits).  The concrete
`ScriptDouble` variant is not in the source tree; the spec only requires that
`toCode` of a double is a re-parseable decimal literal, which this
representation captures without modelling IEEE-754 bit-level behaviour. -/
structure DoubleRep where
  neg : Bool
  ip : Nat
  fr : List (Fin 10)
deriving DecidableEq

/-- Modelled from the spec: the closed set of concrete value variants behind
the `ScriptValue` interface of `src/script/value.hpp` (the variant classes
themselves are not in the source tree).  Identity-compared kinds (function,
object, image) carry a numeric identity standing for the address of the
heap cell; `collection` holds its items, `iterator` holds the not yet
visited items together with the index of the next one, and `error` holds the
deferred error message. -/
inductive ScriptValue
  | nil
  | int (n : Int)
  | bool (b : Bool)
  | double (d : DoubleRep)
  | string (s : String)
  | color (r g b : Nat)
  | image (id : Nat)
  | function (id : Nat)
  | object (id : Nat)
  | collection (items : List ScriptValue)
  | regex (pattern : String)
  | datetime (t : Nat)
  | iterator (items : List ScriptValue) (idx : Nat)
  | dummy
  | error (msg : String)

/-- The `type()` tag of a value, per variant. -/
def ScriptValue.type : ScriptValue → ScriptType
  | .nil => SCRIPT_NIL
  | .int _ => SCRIPT_INT
  | .bool _ => SCRIPT_BOOL
  | .double _ => SCRIPT_DOUBLE
  | .string _ => SCRIPT_STRING
  | .color _ _ _ => SCRIPT_COLOR
  | .image _ => SCRIPT_IMAGE
  | .function _ => SCRIPT_FUNCTION
  | .object _ => SCRIPT_OBJECT
  | .collection _ => SCRIPT_COLLECTION
  | .regex _ => SCRIPT_REGEX
  | .datetime _ => SCRIPT_DATETIME
  | .iterator _ _ => SCRIPT_ITERATOR
  | .dummy => SCRIPT_DUMMY
  | .error _ => SCRIPT_ERROR

/-- Character list of the decimal form of an integer, with a leading minus
sign for negative numbers. -/
def intChars (n : Int) : List Char :=
  if n < 0 then '-' :: natDigits n.natAbs else natDigits n.natAbs

/-- Character list of the decimal form of a double: sign, integer part, a
decimal point, then the fraction digits. -/
def doubleChars (d : DoubleRep) : List Char :=
  (if d.neg then ['-'] else []) ++
    natDigits d.ip ++ '.' :: d.fr.map (fun t => digitChar t.val)

/-- Character list of the textual form of a color, re-parseable as a call of
the built-in rgb function. -/
def colorChars (r g b : Nat) : List Char :=
  'r' :: 'g' :: 'b' :: '(' ::
    (natDigits r ++ ',' :: natDigits g ++ ',' :: natDigits b ++ [')'])

/-- Modelled from the spec: the string form of each variant, as produced in
the out-parameter `compare_str` of `ScriptValue::compareAs` and used by the
string branch of `equal` (section 4.5 of the spec; the variant
implementations are not in the source tree).  Nil converts to the empty
string; numbers and colors use their decimal forms; kinds that compare by
identity have no canonical string form and get a constant label. -/
def ScriptValue.compareStr : ScriptValue → String
  | .nil => ""
  | .int n => String.mk (intChars n)
  | .bool b => if b then "true" else "false"
  | .double d => String.mk (doubleChars d)
  | .string s => s
  | .color r g b => String.mk (colorChars r g b)
  | .image _ => "image"
  | .function _ => "function"
  | .object _ => "object"
  | .collection _ => "collection"
  | .regex p => p
  | .datetime t => String.mk (natDigits t)
  | .iterator _ _ => "iterator"
  | .dummy => ""
  | .error _ => ""

/-- Modelled from the spec: `toCode()` (declared at `src/script/value.hpp`
line 76, implementations not in the source tree) produces a re-parseable
textual representation; primitive kinds print as literals, string values are
quoted with backslash escapes for the quote and the backslash, and the
remaining kinds fall back to their string form. -/
def toCodeChars : ScriptValue → List Char
  | .nil => ['n', 'i', 'l']
  | .int n => intChars n
  | .bool b => if b then ['t', 'r', 'u', 'e'] else ['f', 'a', 'l', 's', 'e']
  | .double d => doubleChars d
  | .string s => '"' :: (escapeChars s.data ++ ['"'])
  | .color r g b => colorChars r g b
  | v => v.compareStr.data
where
  /-- Escape quote and backslash characters with a backslash. -/
  escapeChars : List Char → List Char
    | [] => []
    | c :: cs =>
      if c = '"' ∨ c = '\\' then '\\' :: c :: escapeChars cs
      else c :: escapeChars cs

/-- `toCode()` as a string. -/
def ScriptValue.toCode (v : ScriptValue) : String :=
  String.mk (toCodeChars v)

/-- Modelled from the spec: the comparison strategy reported by
`ScriptValue::compareAs` (declared at `src/script/value.hpp` line 58,
implementations not in the source tree).  Strings, numbers and the other
kinds with a meaningful string form compare as strings; function, object
and similarly opaque kinds compare by identity; error values report no
meaningful comparison. -/
def ScriptValue.compareAs : ScriptValue → CompareWhat
  | .image _ => COMPARE_AS_POINTER
  | .function _ => COMPARE_AS_POINTER
  | .object _ => COMPARE_AS_POINTER
  | .collection _ => COMPARE_AS_POINTER
  | .iterator _ _ => COMPARE_AS_POINTER
  | .dummy => COMPARE_AS_POINTER
  | .error _ => COMPARE_NO
  | _ => COMPARE_AS_STRING

/-- Modelled from the spec: the out-parameter `compare_ptr` of `compareAs`,
standing for the address of the value.  Two C++ objects of different
dynamic type never share an address, so the model pairs the identity with
the type tag; identity-compared kinds use their stored identity. -/
def ScriptValue.comparePtr : ScriptValue → ScriptType × Nat
  | .image id => (SCRIPT_IMAGE, id)
  | .function id => (SCRIPT_FUNCTION, id)
  | .object id => (SCRIPT_OBJECT, id)
  | v => (v.type, 0)

/-- Whether a value reports identity comparison. -/
def ScriptValue.isPtrCompare (v : ScriptValue) : Bool :=
  decide (v.compareAs = COMPARE_AS_POINTER)

/-- Modelled from the spec: the global `equal` declared at
`src/script/value.hpp` line 115 (its implementation is not in the source
tree).  Section 4.5 of the spec: if either side reports identity
comparison, compare by reference identity; otherwise compare the two string
forms. -/
def equal (a b : ScriptValue) : Bool :=
  if a.isPtrCompare || b.isPtrCompare then
    decide (a.comparePtr = b.comparePtr)
  else
    decide (a.compareStr = b.compareStr)

/-- Modelled from the spec: `toString` (declared at `src/script/value.hpp`
line 61, implementations not in the source tree).  Conversions are total
with variant-specific defaults, except that converting an error value
surfaces its deferred failure (sections 3, 4.1 and 7 of the spec). -/
def ScriptValue.toString : ScriptValue → Except String String
  | .error m => .error m
  | v => .ok v.compareStr

/-- Modelled from the spec: `toInt` (declared at `src/script/value.hpp` line
65).  Nil converts to zero; kinds without a meaningful integer form fall
back to zero; converting an error value surfaces its failure. -/
def ScriptValue.toInt : ScriptValue → Except String Int
  | .nil => .ok 0
  | .int n => .ok n
  | .bool b => .ok (if b then 1 else 0)
  | .double d => .ok (if d.neg then -(d.ip : Int) else (d.ip : Int))
  | .datetime t => .ok t
  | .error m => .error m
  | _ => .ok 0

/-- Modelled from the spec: `toDouble` (declared at `src/script/value.hpp`
line 63), with the zero double as the fallback. -/
def ScriptValue.toDouble : ScriptValue → Except String DoubleRep
  | .nil => .ok ⟨false, 0, []⟩
  | .int n => .ok ⟨decide (n < 0), n.natAbs, []⟩
  | .bool b => .ok ⟨false, if b then 1 else 0, []⟩
  | .double d => .ok d
  | .datetime t => .ok ⟨false, t, []⟩
  | .error m => .error m
  | _ => .ok ⟨false, 0, []⟩

/-- Modelled from the spec: `toBool` (declared at `src/script/value.hpp`
line 67).  Nil converts to false. -/
def ScriptValue.toBool : ScriptValue → Except String Bool
  | .nil => .ok false
  | .bool b => .ok b
  | .int n => .ok (decide (n ≠ 0))
  | .double d => .ok (decide (d ≠ ⟨false, 0, []⟩ ∧ d ≠ ⟨true, 0, []⟩))
  | .string s => .ok (decide (s ≠ ""))
  | .error m => .error m
  | _ => .ok false

/-- Modelled from the spec: `toColor` (declared at `src/script/value.hpp`
line 69), with black as the fallback. -/
def ScriptValue.toColor : ScriptValue → Except String (Nat × Nat × Nat)
  | .color r g b => .ok (r, g, b)
  | .error m => .error m
  | _ => .ok (0, 0, 0)

/-- Modelled from the spec: `toDateTime` (declared at `src/script/value.hpp`
line 71), with instant zero as the fallback. -/
def ScriptValue.toDateTime : ScriptValue → Except String Nat
  | .datetime t => .ok t
  | .error m => .error m
  | _ => .ok 0

/-- Modelled from the spec: `toImage` (declared at `src/script/value.hpp`
line 73); non-image kinds yield the identity of a blank generated image. -/
def ScriptValue.toImage : ScriptValue → Except String Nat
  | .image id => .ok id
  | .error m => .error m
  | _ => .ok 0

/-- Modelled from the spec: `makeIterator` (declared at
`src/script/value.hpp` line 102).  A collection yields a fresh iterator
positioned at its first item; other kinds yield a deferred error value. -/
def ScriptValue.makeIterator : ScriptValue → ScriptValue
  | .collection items => .iterator items 0
  | _ => .error "not a collection"

/-- Modelled from the spec: `next` (declared at `src/script/value.hpp` line
107).  Yields the next item together with its index (the `index_out`
out-parameter) and the advanced iterator, or `none` at the end of the
sequence.  The source mutates the iterator in place; the model passes the
advanced iterator explicitly. -/
def ScriptValue.next : ScriptValue → Option (ScriptValue × Nat × ScriptValue)
  | .iterator [] _ => none
  | .iterator (x :: rest) i => some (x, i, .iterator rest (i + 1))
  | _ => none

/-- Modelled from the spec: `itemCount` (declared at `src/script/value.hpp`
line 109), defined on the collection itself without touching any
iterator. -/
def ScriptValue.itemCount : ScriptValue → Nat
  | .collection items => items.length
  | _ => 0

/-- The number of items produced by repeatedly calling `next` until it
returns the end-of-sequence signal, calling it at most `fuel` times. -/
def countNexts : Nat → ScriptValue → Nat
  | 0, _ => 0
  | fuel + 1, it =>
    match it.next with
    | none => 0
    | some (_, _, it2) => countNexts fuel it2 + 1

/-- Modelled from the spec: `getIndex` (declared at `src/script/value.hpp`
line 111); a missing index is a recoverable miss yielding nil. -/
def ScriptValue.getIndex : ScriptValue → Nat → ScriptValue
  | .collection items, i => (items.drop i).headD .nil
  | _, _ => .nil

/-- Modelled from the spec: one scope of the `Context`, a mapping from
variable names to shared values (section 3 of the spec; the `Context` class
is only forward-declared in the source tree). -/
abbrev Scope : Type := List (String × ScriptValue)

/-- Modelled from the spec: the scope stack of a `Context`, innermost scope
first. -/
abbrev Context : Type := List Scope

/-- Modelled from the spec: `openScope` pushes a fresh scope and returns the
new stack together with its handle, the depth of the stack after the
push. -/
def openScope (ctx : Context) : Context × Nat :=
  (([] : Scope) :: ctx, List.length ctx + 1)

/-- Modelled from the spec: `closeScope` pops the top scope after validating
that the handle is the most recently issued unclosed one; `none` models the
fatal assertion failure on an out-of-order handle, which is a programming
error and not a recoverable condition. -/
def closeScope (ctx : Context) (handle : Nat) : Option Context :=
  match ctx with
  | [] => none
  | _ :: rest => if handle = List.length rest + 1 then some rest else none

/-- Modelled from the spec: binding a name in the innermost scope (a new
shadow binding, never a mutation of an outer scope). -/
def bindVar (ctx : Context) (x : String) (v : ScriptValue) : Option Context :=
  match ctx with
  | [] => none
  | f :: rest => some (((x, v) :: f) :: rest)

/-- A properly nested usage pattern of a `Context`: the empty program, the
sequencing of two patterns, a pattern bracketed by `openScope`/`closeScope`
where the close receives exactly the handle returned by the open, and a
variable binding. -/
inductive ScopeProg
  | skip
  | seq (p q : ScopeProg)
  | inScope (p : ScopeProg)
  | bind (x : String) (v : ScriptValue)

/-- Run a properly nested usage pattern against a context; `none` models a
fatal failure. -/
def runScopeProg : ScopeProg → Context → Option Context
  | .skip, ctx => some ctx
  | .seq p q, ctx => (runScopeProg p ctx).bind (fun c => runScopeProg q c)
  | .inScope p, ctx =>
    let (c, h) := openScope ctx
    (runScopeProg p c).bind (fun c2 => closeScope c2 h)
  | .bind x v, ctx => bindVar ctx x v

/-- Modelled from the spec: a `Dependency` describes that a change occurred
to entity `entity`, field `field` (section 3 of the spec; the class is only
forward-declared in the source tree). -/
structure Dependency where
  entity : Nat
  field : String
deriving DecidableEq

/-- Modelled from the spec: the variable environment of a `Context` as seen
by the evaluator; a missing name is reported by `none`. -/
abbrev Env : Type := String → Option ScriptValue

/-- Modelled from the spec: the mutable state behind object members — for
each object identity, the value of each named member. -/
abbrev Store : Type := Nat → String → ScriptValue

/-- Modelled from the spec: the state mutation described by a dependency —
the named field of the named entity takes a new value, everything else is
unchanged. -/
def mutate (store : Store) (dep : Dependency) (newVal : ScriptValue) : Store :=
  fun id name =>
    if id = dep.entity ∧ name = dep.field then newVal else store id name

/-- Modelled from the spec: `getMember` (declared at `src/script/value.hpp`
line 79).  Members of an object live in the store under the object identity;
absence of a member on a non-object kind is a recoverable miss yielding
nil. -/
def getMember (store : Store) (v : ScriptValue) (name : String) : ScriptValue :=
  match v with
  | .object id => store id name
  | _ => .nil

/-- Modelled from the spec: the expression trees produced by the external
parser, restricted to the forms the claims exercise — literals, variable
references, member access and addition. -/
inductive Expr
  | lit (v : ScriptValue)
  | var (x : String)
  | member (e : Expr) (name : String)
  | plus (e1 e2 : Expr)

/-- Modelled from the spec: the tree-walking evaluator.  A reference to an
unbound variable yields a deferred error value reporting the missing name;
member access reads the store; addition forces both operands to integers,
propagating a forced failure as an error value. -/
def evalExpr (env : Env) (store : Store) : Expr → ScriptValue
  | .lit v => v
  | .var x =>
    match env x with
    | some v => v
    | none => .error ("no such variable: " ++ x)
  | .member e name => getMember store (evalExpr env store e) name
  | .plus e1 e2 =>
    match (evalExpr env store e1).toInt, (evalExpr env store e2).toInt with
    | .ok a, .ok b => .int (a + b)
    | .error m, _ => .error m
    | _, .error m => .error m

/-- Modelled from the spec: evaluating a collection literal evaluates each
element and builds the collection, without forcing any element. -/
def evalClist (env : Env) (store : Store) (es : List Expr) : ScriptValue :=
  .collection (es.map (evalExpr env store))

/-- Modelled from the spec: `dependencyMember` (declared at
`src/script/value.hpp` line 85) — whether reading member `name` of value `v`
is affected by the dependency, i.e. whether it reads exactly the mutated
field of the mutated entity. -/
def dependencyMember (v : ScriptValue) (name : String) (dep : Dependency) : Bool :=
  match v with
  | .object id => decide (id = dep.entity) && decide (name = dep.field)
  | _ => false

/-- Modelled from the spec: the dependency walk of an expression — the
shadow walk mirroring `evalExpr` that reports whether the expression is
affected by the dependency (section 4.3 of the spec).  It uses the value of
each sub-expression as the abstract placeholder to continue the walk. -/
def dependencyWalk (env : Env) (store : Store) : Expr → Dependency → Bool
  | .lit _, _ => false
  | .var _, _ => false
  | .member e name, dep =>
    dependencyWalk env store e dep ||
      dependencyMember (evalExpr env store e) name dep
  | .plus e1 e2, dep =>
    dependencyWalk env store e1 dep || dependencyWalk env store e2 dep

/-- Expect a specific character at the head of the input, returning the
rest. -/
def expectChar (c : Char) : List Char → Option (List Char)
  | [] => none
  | d :: rest => if d = c then some rest else none

/-- Parse a nonempty run of decimal digits, returning its value and the rest
of the input. -/
def parseNatChunk (cs : List Char) : Option (Nat × List Char) :=
  let p := takeDigits cs
  if p.1.isEmpty then none
  else (readNat p.1).map (fun n => (n, p.2))

/-- Parse the fraction digits of a double literal: every remaining character
must be a digit. -/
def readFrac : List Char → Option (List (Fin 10))
  | [] => some []
  | c :: cs =>
    match digitVal c with
    | some d => (readFrac cs).map (fun ds => d :: ds)
    | none => none

/-- Parse the body of a string literal after the opening quote: characters
up to an unescaped closing quote that must end the input, undoing backslash
escapes. -/
def parseStrBody : List Char → Option (List Char)
  | [] => none
  | c :: cs =>
    if c = '"' then (if cs.isEmpty then some [] else none)
    else if c = '\\' then
      match cs with
      | [] => none
      | d :: ds => (parseStrBody ds).map (fun l => d :: l)
    else (parseStrBody cs).map (fun l => c :: l)

/-- Parse an unsigned number literal: digits, optionally followed by a point
and fraction digits. -/
def parseUNumber (cs : List Char) : Option ScriptValue :=
  match parseNatChunk cs with
  | none => none
  | some (ip, rest) =>
    match rest with
    | [] => some (.int (ip : Int))
    | c :: frcs =>
      if c = '.' then
        (readFrac frcs).map (fun fr => .double ⟨false, ip, fr⟩)
      else none

/-- Negate a parsed number literal (the effect of evaluating a leading unary
minus). -/
def negValue : ScriptValue → ScriptValue
  | .int n => .int (-n)
  | .double d => .double ⟨true, d.ip, d.fr⟩
  | v => v

/-- Parse a number literal with an optional leading minus sign. -/
def parseNumber : List Char → Option ScriptValue
  | [] => none
  | c :: rest =>
    if c = '-' then (parseUNumber rest).map negValue
    else parseUNumber (c :: rest)

/-- Parse a color literal of the form produced by `toCode`, a call of the
built-in rgb function on three decimal components. -/
def parseRgb (cs : List Char) : Option ScriptValue := do
  let s1 ← expectChar 'r' cs
  let s2 ← expectChar 'g' s1
  let s3 ← expectChar 'b' s2
  let s4 ← expectChar '(' s3
  let (r, s5) ← parseNatChunk s4
  let s6 ← expectChar ',' s5
  let (g, s7) ← parseNatChunk s6
  let s8 ← expectChar ',' s7
  let (b, s9) ← parseNatChunk s8
  let s10 ← expectChar ')' s9
  if s10.isEmpty then some (.color r g b) else none

/-- Modelled from the spec: the literal grammar of the external parser,
covering the textual forms that `toCode` produces for primitive values.
Dispatch is on the first character: a quote starts a string literal, the
letter r a color literal, t and f the boolean literals, anything else a
number literal. -/
def parseLit : List Char → Option ScriptValue
  | [] => none
  | c :: rest =>
    if c = '"' then (parseStrBody rest).map (fun l => .string (String.mk l))
    else if c = 'r' then parseRgb (c :: rest)
    else if c = 't' then
      if rest = ['r', 'u', 'e'] then some (.bool true) else none
    else if c = 'f' then
      if rest = ['a', 'l', 's', 'e'] then some (.bool false) else none
    else parseNumber (c :: rest)

/-- Modelled from the spec: the external parser applied to the output of
`toCode` — a recognised literal becomes a literal expression tree. -/
def parse (s : String) : Option Expr :=
  (parseLit s.data).map Expr.lit

/-- A parse error, as reported by the external parser: a human-readable
message and a source position (`ScriptParseError` in the source). -/
structure ScriptParseError where
  msg : String
  pos : Nat

/-- The result of the external `parse` call as used by `cli_main.cpp`: the
parsed script and the list of collected parse errors.  The parser reports
errors through this list instead of throwing. -/
structure ParseResult where
  script : Expr
  errors : List ScriptParseError

/-- The observable actions of the command-line interface, in order:
messages shown via `cli.show_message`, invocations of the evaluator via
`ctx.eval`, results printed via `cli << result->toCode()`, plain text
printed via `cli <<`, and the handling of a colon command. -/
inductive CliEvent
  | showMessage (msg : String)
  | evalScript (s : Expr)
  | printResult (code : String)
  | printText (t : String)
  | colonCommand (cmd : String)

/-- Embedding of `run_script_file` (`src/cli/cli_main.cpp` lines 80-95),
abstracted over the external parser and the evaluator.  If parsing produced
errors, each is shown and the function returns false; otherwise the script
is evaluated, the result is ignored, and the function returns true.  The
traced events record whether the evaluator was invoked. -/
def run_script_file (parse : String → ParseResult) (evalF : Expr → ScriptValue)
    (contents : String) : Bool × List CliEvent :=
  let pr := parse contents
  if !pr.errors.isEmpty then
    (false, pr.errors.map (fun e => CliEvent.showMessage e.msg))
  else
    let _result := evalF pr.script
    (true, [CliEvent.evalScript pr.script])

/-- Embedding of the command dispatch of `CLISetInterface::handleCommand`
(`src/cli/cli_main.cpp` lines 142-240), abstracted over the external parser
and the evaluator.  An empty command is ignored; a command starting with a
colon is handled by the colon-command dispatch, which never parses or
evaluates a script expression; the literal commands exit, quit and help
print a hint; any other command is parsed, the parse errors are shown and
the handler returns if there is at least one, and only otherwise is the
script evaluated and its result printed as code. -/
def handleCommand (parse : String → ParseResult) (evalF : Expr → ScriptValue)
    (command : String) : List CliEvent :=
  if command = "" then []
  else if command.data.head? = some ':' then [CliEvent.colonCommand command]
  else if command = "exit" ∨ command = "quit" then
    [CliEvent.printText "Use :quit to quit"]
  else if command = "help" then
    [CliEvent.printText "Use :help for help"]
  else
    let pr := parse command
    if !pr.errors.isEmpty then
      pr.errors.map (fun e => CliEvent.showMessage e.msg)
    else
      [CliEvent.evalScript pr.script,
       CliEvent.printResult (evalF pr.script).toCode]

/-- The primitive kinds of the `toCode` round-trip contract. -/
def isPrimitive (v : ScriptValue) : Bool :=
  match v.type with
  | SCRIPT_INT => true
  | SCRIPT_BOOL => true
  | SCRIPT_DOUBLE => true
  | SCRIPT_STRING => true
  | SCRIPT_COLOR => true
  | _ => false

theorem digitVal_digitChar (d : Nat) (h : d < 10) :
    digitVal (digitChar d) = some ⟨d, h⟩ := by
  interval_cases d <;> rfl

theorem digitVal_digitCharFin (t : Fin 10) :
    digitVal (digitChar t.val) = some t := by
  rw [digitVal_digitChar t.val t.isLt]

theorem ne_of_digitVal_isSome {c : Char} (h : (digitVal c).isSome = true)
    (d : Char) (hd : digitVal d = none) : c ≠ d := by
  intro he
  subst he
  rw [hd] at h
  simp at h

theorem mem_natDigitsAux_isSome :
    ∀ fuel n, n < fuel → ∀ c ∈ natDigitsAux fuel n, (digitVal c).isSome = true := by
  intro fuel
  induction fuel with
  | zero => intro n h; omega
  | succ fuel ih =>
    intro n h c hc
    unfold natDigitsAux at hc
    by_cases h10 : n < 10
    · simp only [if_pos h10, List.mem_singleton] at hc
      subst hc
      rw [digitVal_digitChar n h10]
      rfl
    · simp only [if_neg h10, List.mem_append, List.mem_singleton] at hc
      rcases hc with hc | hc
      · have hd : n / 10 < n := Nat.div_lt_self (by omega) (by omega)
        exact ih (n / 10) (by omega) c hc
      · subst hc
        rw [digitVal_digitChar (n % 10) (Nat.mod_lt _ (by omega))]
        rfl

theorem natDigitsAux_ne_nil (fuel n : Nat) (h : n < fuel) :
    natDigitsAux fuel n ≠ [] := by
  match fuel with
  | 0 => omega
  | fuel + 1 =>
    unfold natDigitsAux
    by_cases h10 : n < 10
    · simp [h10]
    · simp [h10]

theorem mem_natDigits_isSome (n : Nat) :
    ∀ c ∈ natDigits n, (digitVal c).isSome = true :=
  mem_natDigitsAux_isSome (n + 1) n (by omega)

theorem natDigits_ne_nil (n : Nat) : natDigits n ≠ [] :=
  natDigitsAux_ne_nil (n + 1) n (by omega)

theorem readNatAux_append (xs : List Char) :
    ∀ ys acc, readNatAux acc (xs ++ ys) =
      (readNatAux acc xs).bind (fun a => readNatAux a ys) := by
  induction xs with
  | nil => intro ys acc; rfl
  | cons c cs ih =>
    intro ys acc
    show readNatAux acc (c :: (cs ++ ys)) = _
    cases hd : digitVal c with
    | none => simp [readNatAux, hd]
    | some d => simp only [readNatAux, hd]; exact ih ys (acc * 10 + d.val)

theorem readNatAux_natDigitsAux :
    ∀ fuel n acc, n < fuel →
      readNatAux acc (natDigitsAux fuel n) =
        some (acc * 10 ^ (natDigitsAux fuel n).length + n) := by
  intro fuel
  induction fuel with
  | zero => intro n acc h; omega
  | succ fuel ih =>
    intro n acc h
    unfold natDigitsAux
    by_cases h10 : n < 10
    · simp only [if_pos h10]
      unfold readNatAux
      rw [digitVal_digitChar n h10]
      show some (acc * 10 + n) = some (acc * 10 ^ 1 + n)
      norm_num
    · simp only [if_neg h10]
      rw [readNatAux_append]
      have hd : n / 10 < n := Nat.div_lt_self (by omega) (by omega)
      rw [ih (n / 10) acc (by omega)]
      show readNatAux _ [digitChar (n % 10)] = _
      unfold readNatAux
      rw [digitVal_digitChar (n % 10) (Nat.mod_lt _ (by omega))]
      show some ((acc * 10 ^ (natDigitsAux fuel (n / 10)).length + n / 10) * 10
          + n % 10) = _
      rw [List.length_append, List.length_singleton, pow_succ]
      have hre : acc * (10 ^ (natDigitsAux fuel (n / 10)).length * 10)
          = acc * 10 ^ (natDigitsAux fuel (n / 10)).length * 10 := by ring
      rw [hre]
      generalize acc * 10 ^ (natDigitsAux fuel (n / 10)).length = A
      congr 1
      omega

theorem readNat_natDigits (n : Nat) : readNat (natDigits n) = some n := by
  unfold readNat
  rw [if_neg (by simpa using natDigits_ne_nil n)]
  unfold natDigits
  rw [readNatAux_natDigitsAux (n + 1) n 0 (by omega)]
  norm_num

theorem takeDigits_append (xs : List Char) :
    ∀ rest, (∀ c ∈ xs, (digitVal c).isSome = true) →
      (∀ c cs, rest = c :: cs → digitVal c = none) →
      takeDigits (xs ++ rest) = (xs, rest) := by
  induction xs with
  | nil =>
    intro rest _ hrest
    cases rest with
    | nil => rfl
    | cons c cs =>
      show takeDigits (c :: cs) = ([], c :: cs)
      unfold takeDigits
      rw [hrest c cs rfl]
      rfl
  | cons x xs ih =>
    intro rest hxs hrest
    have hx : (digitVal x).isSome = true := hxs x (by simp)
    show takeDigits (x :: (xs ++ rest)) = (x :: xs, rest)
    unfold takeDigits
    rw [if_pos hx, ih rest (fun c hc => hxs c (by simp [hc])) hrest]

theorem parseNatChunk_natDigits (n : Nat) (rest : List Char)
    (hrest : ∀ c cs, rest = c :: cs → digitVal c = none) :
    parseNatChunk (natDigits n ++ rest) = some (n, rest) := by
  unfold parseNatChunk
  rw [takeDigits_append (natDigits n) rest (mem_natDigits_isSome n) hrest]
  simp only [List.isEmpty_eq_true]
  rw [if_neg (natDigits_ne_nil n), readNat_natDigits n]
  rfl

theorem parseUNumber_natDigits (n : Nat) :
    parseUNumber (natDigits n) = some (.int (n : Int)) := by
  have h2 := parseNatChunk_natDigits n [] (by intro c cs h; simp at h)
  rw [List.append_nil] at h2
  unfold parseUNumber
  rw [h2]

theorem readFrac_map (fr : List (Fin 10)) :
    readFrac (fr.map (fun t => digitChar t.val)) = some fr := by
  induction fr with
  | nil => rfl
  | cons t ts ih =>
    show readFrac (digitChar t.val :: ts.map (fun t => digitChar t.val)) = _
    unfold readFrac
    rw [digitVal_digitCharFin t, ih]
    rfl

theorem parseUNumber_doubleChars (ip : Nat) (fr : List (Fin 10)) :
    parseUNumber (natDigits ip ++ '.' :: fr.map (fun t => digitChar t.val)) =
      some (.double ⟨false, ip, fr⟩) := by
  have h2 := parseNatChunk_natDigits ip ('.' :: fr.map (fun t => digitChar t.val))
    (by intro c cs h; cases h; rfl)
  unfold parseUNumber
  rw [h2]
  show (if '.' = '.' then _ else none) = _
  rw [if_pos rfl, readFrac_map fr]
  rfl

theorem parseStrBody_escape (l : List Char) :
    parseStrBody (toCodeChars.escapeChars l ++ ['"']) = some l := by
  induction l with
  | nil => rfl
  | cons c cs ih =>
    show parseStrBody (toCodeChars.escapeChars (c :: cs) ++ ['"']) = _
    unfold toCodeChars.escapeChars
    by_cases hc : c = '"' ∨ c = '\\'
    · rw [if_pos hc]
      show parseStrBody ('\\' :: c :: (toCodeChars.escapeChars cs ++ ['"'])) = _
      simp [parseStrBody, ih]
    · rw [if_neg hc]
      push_neg at hc
      show parseStrBody (c :: (toCodeChars.escapeChars cs ++ ['"'])) = _
      unfold parseStrBody
      rw [if_neg hc.1, if_neg hc.2, ih]
      rfl

theorem parseLit_eq_parseNumber (c : Char) (cs : List Char)
    (h : (digitVal c).isSome = true ∨ c = '-') :
    parseLit (c :: cs) = parseNumber (c :: cs) := by
  have h1 : c ≠ '"' := by
    rcases h with h | h
    · exact ne_of_digitVal_isSome h '"' rfl
    · subst h; decide
  have h2 : c ≠ 'r' := by
    rcases h with h | h
    · exact ne_of_digitVal_isSome h 'r' rfl
    · subst h; decide
  have h3 : c ≠ 't' := by
    rcases h with h | h
    · exact ne_of_digitVal_isSome h 't' rfl
    · subst h; decide
  have h4 : c ≠ 'f' := by
    rcases h with h | h
    · exact ne_of_digitVal_isSome h 'f' rfl
    · subst h; decide
  simp only [parseLit]
  rw [if_neg h1, if_neg h2, if_neg h3, if_neg h4]

theorem parseLit_intChars (n : Int) : parseLit (intChars n) = some (.int n) := by
  unfold intChars
  by_cases hn : n < 0
  · rw [if_pos hn]
    rw [parseLit_eq_parseNumber '-' _ (Or.inr rfl)]
    show (parseUNumber (natDigits n.natAbs)).map negValue = _
    rw [parseUNumber_natDigits]
    show some (ScriptValue.int (-(n.natAbs : Int))) = some (ScriptValue.int n)
    congr 2
    omega
  · rw [if_neg hn]
    obtain ⟨c, cs, h⟩ : ∃ c cs, natDigits n.natAbs = c :: cs := by
      cases h2 : natDigits n.natAbs with
      | nil => exact absurd h2 (natDigits_ne_nil _)
      | cons c cs => exact ⟨c, cs, rfl⟩
    have hdig : (digitVal c).isSome = true :=
      mem_natDigits_isSome n.natAbs c (by rw [h]; simp)
    rw [h, parseLit_eq_parseNumber c cs (Or.inl hdig)]
    simp only [parseNumber]
    rw [if_neg (ne_of_digitVal_isSome hdig '-' rfl), ← h, parseUNumber_natDigits]
    congr 2
    omega

theorem parseLit_doubleChars (d : DoubleRep) :
    parseLit (doubleChars d) = some (.double d) := by
  obtain ⟨neg, ip, fr⟩ := d
  cases neg with
  | true =>
    show parseLit ('-' :: (natDigits ip ++ '.' :: fr.map (fun t => digitChar t.val)))
      = _
    rw [parseLit_eq_parseNumber '-' _ (Or.inr rfl)]
    show (parseUNumber (natDigits ip ++ '.' :: fr.map (fun t => digitChar t.val))).map
      negValue = _
    rw [parseUNumber_doubleChars]
    rfl
  | false =>
    show parseLit (natDigits ip ++ '.' :: fr.map (fun t => digitChar t.val)) = _
    obtain ⟨c, cs, h⟩ : ∃ c cs, natDigits ip = c :: cs := by
      cases h2 : natDigits ip with
      | nil => exact absurd h2 (natDigits_ne_nil _)
      | cons c cs => exact ⟨c, cs, rfl⟩
    have hdig : (digitVal c).isSome = true :=
      mem_natDigits_isSome ip c (by rw [h]; simp)
    rw [h, List.cons_append, parseLit_eq_parseNumber c _ (Or.inl hdig)]
    simp only [parseNumber]
    rw [if_neg (ne_of_digitVal_isSome hdig '-' rfl), ← List.cons_append, ← h,
      parseUNumber_doubleChars]

theorem parseLit_stringChars (s : String) :
    parseLit ('"' :: (toCodeChars.escapeChars s.data ++ ['"'])) =
      some (.string s) := by
  have hred : parseLit ('"' :: (toCodeChars.escapeChars s.data ++ ['"'])) =
      (parseStrBody (toCodeChars.escapeChars s.data ++ ['"'])).map
        (fun l => .string (String.mk l)) := rfl
  rw [hred, parseStrBody_escape]
  obtain ⟨data⟩ := s
  rfl

theorem parseRgb_colorChars (r g b : Nat) :
    parseRgb (colorChars r g b) = some (.color r g b) := by
  have h1 := parseNatChunk_natDigits r
    (',' :: (natDigits g ++ ',' :: (natDigits b ++ [')'])))
    (by intro c cs h; cases h; rfl)
  have h2 := parseNatChunk_natDigits g (',' :: (natDigits b ++ [')']))
    (by intro c cs h; cases h; rfl)
  have h3 := parseNatChunk_natDigits b [')'] (by intro c cs h; cases h; rfl)
  unfold colorChars parseRgb
  simp [expectChar, h1, h2, h3]

theorem parseLit_toCodeChars (v : ScriptValue) (h : isPrimitive v = true) :
    parseLit (toCodeChars v) = some v := by
  cases v with
  | int n => exact parseLit_intChars n
  | bool b => cases b <;> rfl
  | double d => exact parseLit_doubleChars d
  | string s => exact parseLit_stringChars s
  | color r g b =>
    have hred : parseLit (toCodeChars (.color r g b)) =
        parseRgb (colorChars r g b) := rfl
    rw [hred]
    exact parseRgb_colorChars r g b
  | nil => simp [isPrimitive, ScriptValue.type] at h
  | image id => simp [isPrimitive, ScriptValue.type] at h
  | function id => simp [isPrimitive, ScriptValue.type] at h
  | object id => simp [isPrimitive, ScriptValue.type] at h
  | collection items => simp [isPrimitive, ScriptValue.type] at h
  | regex p => simp [isPrimitive, ScriptValue.type] at h
  | datetime t => simp [isPrimitive, ScriptValue.type] at h
  | iterator items idx => simp [isPrimitive, ScriptValue.type] at h
  | dummy => simp [isPrimitive, ScriptValue.type] at h
  | error m => simp [isPrimitive, ScriptValue.type] at h

theorem equal_refl (a : ScriptValue) : equal a a = true := by
  unfold equal
  split
  · simp
  · simp

theorem equal_symm (a b : ScriptValue) : equal a b = equal b a := by
  unfold equal
  rw [Bool.or_comm]
  split
  · rw [decide_eq_decide]
    exact eq_comm
  · rw [decide_eq_decide]
    exact eq_comm

theorem compareStr_of_toString_ok {v : ScriptValue} {s : String}
    (h : v.toString = .ok s) : v.compareStr = s := by
  cases v <;> simp_all [ScriptValue.toString]

theorem evalExpr_mutate_of_walk_false (env : Env) (store : Store)
    (dep : Dependency) (w : ScriptValue) :
    ∀ e : Expr, dependencyWalk env store e dep = false →
      evalExpr env (mutate store dep w) e = evalExpr env store e := by
  intro e
  induction e with
  | lit v => intro _; rfl
  | var x => intro _; rfl
  | member e name ih =>
    intro h
    unfold dependencyWalk at h
    rw [Bool.or_eq_false_iff] at h
    obtain ⟨h1, h2⟩ := h
    show getMember (mutate store dep w) (evalExpr env (mutate store dep w) e) name
      = getMember store (evalExpr env store e) name
    rw [ih h1]
    cases hv : evalExpr env store e
    case object id =>
      rw [hv] at h2
      unfold dependencyMember at h2
      simp only [Bool.and_eq_false_iff, decide_eq_false_iff_not] at h2
      show mutate store dep w id name = store id name
      unfold mutate
      rw [if_neg]
      intro hand
      rcases h2 with h2 | h2
      · exact h2 hand.1
      · exact h2 hand.2
    all_goals rfl
  | plus e1 e2 ih1 ih2 =>
    intro h
    unfold dependencyWalk at h
    rw [Bool.or_eq_false_iff] at h
    simp only [evalExpr]
    rw [ih1 h.1, ih2 h.2]

theorem countNexts_iterator (items : List ScriptValue) :
    ∀ extra i, countNexts (items.length + extra) (.iterator items i)
      = items.length := by
  induction items with
  | nil =>
    intro extra i
    cases extra with
    | zero => rfl
    | succ k => rfl
  | cons x xs ih =>
    intro extra i
    have hl : (x :: xs).length + extra = (xs.length + extra) + 1 := by
      simp [List.length_cons]
      omega
    rw [hl]
    show countNexts (xs.length + extra + 1) (.iterator (x :: xs) i)
      = (x :: xs).length
    simp only [countNexts, ScriptValue.next]
    rw [ih extra (i + 1)]
    simp [List.length_cons]

theorem runScopeProg_nested_ok (p : ScopeProg) :
    ∀ ctx : Context, ctx ≠ [] →
      ∃ ctx2, runScopeProg p ctx = some ctx2 ∧
        List.length ctx2 = List.length ctx := by
  induction p with
  | skip => intro ctx _; exact ⟨ctx, rfl, rfl⟩
  | seq p q ihp ihq =>
    intro ctx h
    obtain ⟨c1, h1, hl1⟩ := ihp ctx h
    have hne : c1 ≠ [] := by
      intro he
      apply h
      rw [he] at hl1
      exact List.length_eq_zero.mp hl1.symm
    obtain ⟨c2, h2, hl2⟩ := ihq c1 hne
    refine ⟨c2, ?_, by omega⟩
    show (runScopeProg p ctx).bind (fun c => runScopeProg q c) = some c2
    rw [h1]
    exact h2
  | inScope p ihp =>
    intro ctx _
    obtain ⟨c2, h2, hl2⟩ := ihp (([] : Scope) :: ctx) (by simp)
    cases c2 with
    | nil => simp at hl2
    | cons f rest =>
      have hr : List.length rest = List.length ctx := by
        simp at hl2
        omega
      refine ⟨rest, ?_, hr⟩
      show (runScopeProg p (([] : Scope) :: ctx)).bind
        (fun c => closeScope c (List.length ctx + 1)) = some rest
      rw [h2]
      show (if List.length ctx + 1 = List.length rest + 1 then some rest else none)
        = some rest
      rw [if_pos (by omega)]
  | bind x v =>
    intro ctx h
    cases ctx with
    | nil => exact absurd rfl h
    | cons f rest => exact ⟨((x, v) :: f) :: rest, rfl, by simp⟩

theorem closeScope_fail (ctx : Context) (h : Nat)
    (hne : h ≠ List.length ctx) : closeScope ctx h = none := by
  cases ctx with
  | nil => rfl
  | cons f rest =>
    show (if h = List.length rest + 1 then some rest else none) = none
    rw [if_neg]
    intro he
    apply hne
    rw [he]
    simp

/-- Claim C1: `equal(a, b)` compares by reference identity whenever either
side's `compareAs` reports `COMPARE_AS_POINTER`, and otherwise compares the
two values' string forms as produced by `toString()`, so that cross-kind
coercing equality holds; in particular `equal` of int 3 and string "3" is
true. -/
theorem claim_c1 :
    (∀ a b : ScriptValue,
        a.compareAs = COMPARE_AS_POINTER ∨ b.compareAs = COMPARE_AS_POINTER →
        (equal a b = true ↔ a.comparePtr = b.comparePtr)) ∧
    (∀ (a b : ScriptValue) (sa sb : String),
        a.compareAs ≠ COMPARE_AS_POINTER → b.compareAs ≠ COMPARE_AS_POINTER →
        a.toString = .ok sa → b.toString = .ok sb →
        (equal a b = true ↔ sa = sb)) ∧
    equal (.int 3) (.string "3") = true := by
  refine ⟨?_, ?_, ?_⟩
  · intro a b h
    have hc : (a.isPtrCompare || b.isPtrCompare) = true := by
      rcases h with h | h <;> simp [ScriptValue.isPtrCompare, h]
    unfold equal
    rw [if_pos hc]
    simp
  · intro a b sa sb ha hb hsa hsb
    have hca : a.isPtrCompare = false := by simp [ScriptValue.isPtrCompare, ha]
    have hcb : b.isPtrCompare = false := by simp [ScriptValue.isPtrCompare, hb]
    unfold equal
    rw [hca, hcb]
    simp [compareStr_of_toString_ok hsa, compareStr_of_toString_ok hsb]
  · rfl

/-- Witness for C1 at concrete inputs: two references to the same function
value compare by pointer, and two int values compare by their string
forms. -/
theorem claim_c1_witness :
    (equal (.function 1) (.function 1) = true ↔
      (ScriptValue.function 1).comparePtr = (ScriptValue.function 1).comparePtr) ∧
    (equal (.int 3) (.int 4) = true ↔ "3" = "4") :=
  ⟨claim_c1.1 (.function 1) (.function 1) (Or.inl rfl),
   claim_c1.2.1 (.int 3) (.int 4) "3" "4" (by decide) (by decide) rfl rfl⟩

/-- Claim C2: for every primitive value (int, bool, double, string, color),
parsing the text produced by `toCode()` yields an expression whose
evaluation is a value `equal` to the original. -/
theorem claim_c2 (v : ScriptValue) (h : isPrimitive v = true) :
    ∃ e : Expr, parse v.toCode = some e ∧
      ∀ (env : Env) (store : Store), equal (evalExpr env store e) v = true := by
  refine ⟨Expr.lit v, ?_, ?_⟩
  · unfold parse ScriptValue.toCode
    rw [show (String.mk (toCodeChars v)).data = toCodeChars v from rfl,
      parseLit_toCodeChars v h]
    rfl
  · intro env store
    show equal v v = true
    exact equal_refl v

/-- Witness for C2 at the concrete primitive value int -12. -/
theorem claim_c2_witness :
    isPrimitive (.int (-12)) = true ∧
    ∃ e : Expr, parse (ScriptValue.int (-12)).toCode = some e ∧
      ∀ (env : Env) (store : Store),
        equal (evalExpr env store e) (.int (-12)) = true :=
  ⟨rfl, claim_c2 (.int (-12)) rfl⟩

/-- Claim C3: dependency propagation is conservative — whenever evaluating an
expression under the state mutated as described by a dependency produces a
different result than before the mutation, the dependency walk of that
expression reports it as affected. -/
theorem claim_c3 (env : Env) (store : Store) (e : Expr) (dep : Dependency)
    (w : ScriptValue)
    (hchange : evalExpr env (mutate store dep w) e ≠ evalExpr env store e) :
    dependencyWalk env store e dep = true := by
  cases hw : dependencyWalk env store e dep
  · exact absurd (evalExpr_mutate_of_walk_false env store dep w e hw) hchange
  · rfl

/-- Witness for C3: reading field f of object 1 changes its value when the
dependency (entity 1, field f) is applied, and the walk reports the
expression as affected. -/
theorem claim_c3_witness :
    dependencyWalk (fun _ => none) (fun _ _ => ScriptValue.nil)
      (Expr.member (Expr.lit (ScriptValue.object 1)) "f") ⟨1, "f"⟩ = true :=
  claim_c3 (fun _ => none) (fun _ _ => ScriptValue.nil)
    (Expr.member (Expr.lit (ScriptValue.object 1)) "f") ⟨1, "f"⟩
    (ScriptValue.int 5) (by
      intro hcontra
      have h1 : evalExpr (fun _ => none)
          (mutate (fun _ _ => ScriptValue.nil) ⟨1, "f"⟩ (ScriptValue.int 5))
          (Expr.member (Expr.lit (ScriptValue.object 1)) "f")
          = ScriptValue.int 5 := rfl
      have h2 : evalExpr (fun _ => none) (fun _ _ => ScriptValue.nil)
          (Expr.member (Expr.lit (ScriptValue.object 1)) "f")
          = ScriptValue.nil := rfl
      rw [h1, h2] at hcontra
      exact ScriptValue.noConfusion hcontra)

/-- Claim C4: for every collection, repeatedly calling `next` on the
iterator returned by `makeIterator` yields exactly `itemCount` items before
the end-of-sequence signal, no matter how many extra calls are budgeted,
and `itemCount` is a function of the collection alone (it does not consume
any iterator). -/
theorem claim_c4 (items : List ScriptValue) (extra : Nat) :
    countNexts ((ScriptValue.collection items).itemCount + extra)
        (ScriptValue.collection items).makeIterator
      = (ScriptValue.collection items).itemCount ∧
    (ScriptValue.collection items).itemCount = items.length := by
  constructor
  · show countNexts (items.length + extra) (.iterator items 0) = items.length
    exact countNexts_iterator items extra 0
  · rfl

/-- Claim C5: every properly nested sequence of `openScope`/`closeScope`
calls succeeds (restoring the stack depth), while closing a handle that is
not the most recently issued unclosed one fails fatally. -/
theorem claim_c5 :
    (∀ (p : ScopeProg) (ctx : Context), ctx ≠ [] →
      ∃ ctx2, runScopeProg p ctx = some ctx2 ∧
        List.length ctx2 = List.length ctx) ∧
    (∀ (ctx : Context) (h : Nat), h ≠ List.length ctx →
      closeScope ctx h = none) :=
  ⟨fun p ctx h => runScopeProg_nested_ok p ctx h,
   fun ctx h hne => closeScope_fail ctx h hne⟩

/-- Witness for C5: a bracketed bind succeeds on a one-scope context, and
closing with a stale handle fails. -/
theorem claim_c5_witness :
    (∃ ctx2, runScopeProg (ScopeProg.inScope (ScopeProg.bind "x" ScriptValue.nil))
        [([] : Scope)] = some ctx2 ∧
      List.length ctx2 = List.length [([] : Scope)]) ∧
    closeScope [([] : Scope)] 7 = none :=
  ⟨claim_c5.1 (ScopeProg.inScope (ScopeProg.bind "x" ScriptValue.nil))
      [([] : Scope)] (by simp),
   claim_c5.2 [([] : Scope)] 7 (by simp)⟩

/-- Claim C6: an undefined variable reference evaluates to a value of the
designated `SCRIPT_ERROR` kind carrying a "no such variable" message;
constructing an error value is an ordinary value construction (its type tag
is `SCRIPT_ERROR`, nothing is thrown), the failure surfaces only when the
value is consumed (here: converted with `toString`), and a collection
literal containing the unconsumed error element still evaluates to the
whole collection. -/
theorem claim_c6 (env : Env) (store : Store) (x : String)
    (hx : env x = none) :
    evalExpr env store (Expr.var x) = .error ("no such variable: " ++ x) ∧
    (evalExpr env store (Expr.var x)).type = SCRIPT_ERROR ∧
    (evalExpr env store (Expr.var x)).toString
      = .error ("no such variable: " ++ x) ∧
    evalClist env store [Expr.lit (.int 1), Expr.var x]
      = .collection [.int 1, .error ("no such variable: " ++ x)] ∧
    (∀ m, (ScriptValue.error m).type = SCRIPT_ERROR) := by
  have hv : evalExpr env store (Expr.var x)
      = .error ("no such variable: " ++ x) := by
    simp [evalExpr, hx]
  refine ⟨hv, by rw [hv]; rfl, by rw [hv]; rfl, ?_, fun m => rfl⟩
  unfold evalClist
  rw [List.map_cons, List.map_cons, List.map_nil, hv]
  rfl

/-- Witness for C6 at a concrete empty environment and the variable y. -/
theorem claim_c6_witness :
    evalExpr (fun _ => none) (fun _ _ => ScriptValue.nil) (Expr.var "y")
      = ScriptValue.error ("no such variable: " ++ "y") :=
  (claim_c6 (fun _ => none) (fun _ _ => ScriptValue.nil) "y" rfl).1

/-- Counterexample for C7 as stated: converting a value of the error variant
does not produce a variant-specific default — it surfaces the deferred
failure, so the conversions are not failure-free on every variant. -/
theorem claim_c7_counterexample :
    (ScriptValue.error "oops").toString = Except.error "oops" ∧
    ((ScriptValue.error "oops").toString).isOk = false :=
  ⟨rfl, rfl⟩

/-- Claim C7 as amended: for every value whose variant is not
`SCRIPT_ERROR`, each conversion operation is total and returns a
well-defined variant-specific default; in particular nil converts to the
empty string, zero, the zero double and false.  Converting an error-kind
value instead surfaces the deferred failure. -/
theorem claim_c7_amended (v : ScriptValue) (h : v.type ≠ SCRIPT_ERROR) :
    ((∃ s, v.toString = .ok s) ∧ (∃ n, v.toInt = .ok n) ∧
     (∃ d, v.toDouble = .ok d) ∧ (∃ b, v.toBool = .ok b) ∧
     (∃ c, v.toColor = .ok c) ∧ (∃ t, v.toDateTime = .ok t) ∧
     (∃ i, v.toImage = .ok i)) ∧
    (ScriptValue.nil.toString = .ok "" ∧ ScriptValue.nil.toInt = .ok 0 ∧
     ScriptValue.nil.toDouble = .ok ⟨false, 0, []⟩ ∧
     ScriptValue.nil.toBool = .ok false) := by
  cases v <;>
    first
      | exact absurd rfl h
      | exact ⟨⟨⟨_, rfl⟩, ⟨_, rfl⟩, ⟨_, rfl⟩, ⟨_, rfl⟩, ⟨_, rfl⟩, ⟨_, rfl⟩,
          ⟨_, rfl⟩⟩, rfl, rfl, rfl, rfl⟩

/-- Witness for C7 (amended) at the concrete value nil. -/
theorem claim_c7_witness :
    (∃ s, ScriptValue.nil.toString = .ok s) ∧ (∃ n, ScriptValue.nil.toInt = .ok n) ∧
    (∃ d, ScriptValue.nil.toDouble = .ok d) ∧ (∃ b, ScriptValue.nil.toBool = .ok b) ∧
    (∃ c, ScriptValue.nil.toColor = .ok c) ∧ (∃ t, ScriptValue.nil.toDateTime = .ok t) ∧
    (∃ i, ScriptValue.nil.toImage = .ok i) :=
  (claim_c7_amended ScriptValue.nil (by decide)).1

/-- Claim C8: the global `equal` is symmetric and reflexive for all value
kinds, and two distinct object instances with identical content (the same
member map in the store) are not equal, since objects compare by
identity. -/
theorem claim_c8 :
    (∀ a b : ScriptValue, equal a b = equal b a) ∧
    (∀ a : ScriptValue, equal a a = true) ∧
    (∀ (store : Store) (i1 i2 : Nat), store i1 = store i2 → i1 ≠ i2 →
      equal (.object i1) (.object i2) = false) := by
  refine ⟨fun a b => equal_symm a b, fun a => equal_refl a, ?_⟩
  intro store i1 i2 _ hne
  unfold equal
  rw [if_pos (by rfl)]
  simp [ScriptValue.comparePtr, Prod.ext_iff, hne]

/-- Witness for C8: two distinct object instances over the same store are
not equal. -/
theorem claim_c8_witness : equal (.object 0) (.object 1) = false :=
  claim_c8.2.2 (fun _ _ => ScriptValue.nil) 0 1 rfl (by decide)

/-- Claim C9: parse errors are collected into a list (the parser is a pure
function returning the list, it throws nothing) and the evaluator is
invoked only when that list is empty — in both `run_script_file` and the
expression branch of `handleCommand`, an evaluation event can only occur in
the trace when parsing produced zero errors, and when there is at least one
error `run_script_file` instead reports every error to the caller. -/
theorem claim_c9 :
    (∀ (parse : String → ParseResult) (evalF : Expr → ScriptValue)
        (contents : String) (s : Expr),
        CliEvent.evalScript s ∈ (run_script_file parse evalF contents).2 →
        (parse contents).errors = []) ∧
    (∀ (parse : String → ParseResult) (evalF : Expr → ScriptValue)
        (command : String) (s : Expr),
        CliEvent.evalScript s ∈ handleCommand parse evalF command →
        (parse command).errors = []) ∧
    (∀ (parse : String → ParseResult) (evalF : Expr → ScriptValue)
        (contents : String),
        (parse contents).errors ≠ [] →
        (run_script_file parse evalF contents).2 =
          (parse contents).errors.map (fun e => CliEvent.showMessage e.msg)) := by
  refine ⟨?_, ?_, ?_⟩
  · intro parse evalF contents s h
    by_cases he : (parse contents).errors.isEmpty
    · exact List.isEmpty_iff.mp he
    · exfalso
      unfold run_script_file at h
      rw [if_pos (by simp [he])] at h
      simp only [List.mem_map] at h
      obtain ⟨e, -, heq⟩ := h
      exact CliEvent.noConfusion heq
  · intro parse evalF command s h
    unfold handleCommand at h
    by_cases h0 : command = ""
    · rw [if_pos h0] at h
      simp at h
    · rw [if_neg h0] at h
      by_cases hc : command.data.head? = some ':'
      · rw [if_pos hc] at h
        have heq := List.mem_singleton.mp h
        exact CliEvent.noConfusion heq
      · rw [if_neg hc] at h
        by_cases hq : command = "exit" ∨ command = "quit"
        · rw [if_pos hq] at h
          have heq := List.mem_singleton.mp h
          exact CliEvent.noConfusion heq
        · rw [if_neg hq] at h
          by_cases hh : command = "help"
          · rw [if_pos hh] at h
            have heq := List.mem_singleton.mp h
            exact CliEvent.noConfusion heq
          · rw [if_neg hh] at h
            by_cases he : (parse command).errors.isEmpty
            · exact List.isEmpty_iff.mp he
            · exfalso
              rw [if_pos (by simp [he])] at h
              simp only [List.mem_map] at h
              obtain ⟨e, -, heq⟩ := h
              exact CliEvent.noConfusion heq
  · intro parse evalF contents he
    unfold run_script_file
    rw [if_pos (by simp [List.isEmpty_iff, he])]

/-- Witness for C9: a command that parses without errors leads to an
evaluator invocation, and the theorem recovers that the error list is
empty. -/
theorem claim_c9_witness :
    ((fun _ : String => ParseResult.mk (Expr.lit ScriptValue.nil) []) "1+1").errors
      = [] :=
  claim_c9.2.1 (fun _ => ParseResult.mk (Expr.lit ScriptValue.nil) [])
    (fun _ => ScriptValue.nil) "1+1" (Expr.lit ScriptValue.nil)
    (List.mem_cons_self _ _)

/-- Claim C10: `run_script_file` returns false exactly when parsing produced
at least one error; whenever parsing succeeds it returns true for every
possible evaluator — the evaluation result is discarded without being
forced, so a script whose evaluation yields an error-kind value still
reports success. -/
theorem claim_c10 (parse : String → ParseResult) (evalF : Expr → ScriptValue)
    (contents : String) :
    (run_script_file parse evalF contents).1 = (parse contents).errors.isEmpty := by
  unfold run_script_file
  by_cases he : (parse contents).errors.isEmpty <;> simp [he]
